import Mathlib

/-!
Formal model of the priceAlert bot (src/bot.py).

The development shallowly embeds the alert data model, the crossing
detector inside `check_alerts`, the per-alert scheduler step, the JSON
snapshot persistence (`save_alerts` / `load_data`), and the command
handlers `set_alert`, `remove_alert`, and `clear_alerts`.  Prices are
modelled as rationals, Python dictionaries as insertion-ordered
association lists, and the Python `str` / `int` conversions used for
dictionary keys as decimal printing and parsing.
-/

namespace PriceAlert

/-! ### Decimal string conversion (Python `str` and `int` on integers)

`bot.py` stores alert ids as `str(alert_counter)` and chat ids are
serialized through `json.dump` as decimal strings; `load_data` converts
them back with `int(...)`.  We model `str` with the decimal printer used
by Lean core (`Nat.toDigits`) and `int` with an explicit decimal parser.
-/

/-- Specification form of the decimal digit expansion, most significant
digit first.  `Nat.toDigits 10` is proved equal to it below. -/
def digitsRec (n : Nat) : List Char :=
  if n < 10 then [Nat.digitChar n]
  else digitsRec (n / 10) ++ [Nat.digitChar (n % 10)]
decreasing_by exact Nat.div_lt_self (by omega) (by omega)

/-- Parse a nonempty all-digit character list as a decimal natural
number, the way Python `int` reads the digits of a decimal literal. -/
def parseNat (cs : List Char) : Option Nat :=
  if cs.isEmpty then none
  else if cs.all Char.isDigit then
    some (cs.foldl (fun a c => 10 * a + (c.toNat - 48)) 0)
  else none

/-- Python `str` on an integer: the decimal representation, with a
leading minus sign for negative values.  This is exactly how Lean core
prints `Int` (`Int.repr`). -/
def pyStr (n : Int) : String :=
  match n with
  | .ofNat m => (Nat.toDigits 10 m).asString
  | .negSucc m => "-" ++ (Nat.toDigits 10 (m + 1)).asString

/-- Python `int` on a string: an optional minus sign followed by decimal
digits; anything else raises `ValueError`, modelled as `none`.  (Python
also tolerates surrounding whitespace and a plus sign; such strings are
never produced by `pyStr` and never arise below.) -/
def pyInt? (s : String) : Option Int :=
  match s.data with
  | [] => none
  | c :: cs =>
    if c = '-' then (parseNat cs).map (fun v => -(v : Int))
    else (parseNat (c :: cs)).map (fun v => (v : Int))

/-! ### Python dictionaries as insertion-ordered association lists

Python dictionaries preserve insertion order: assignment to a present
key updates it in place, assignment to an absent key appends, and `del`
removes the unique entry with the key. -/

/-- Dictionary lookup, `m[k]` (also the `in` test via `isSome`). -/
def dictGet {α β : Type} [DecidableEq α] (m : List (α × β)) (k : α) : Option β :=
  match m with
  | [] => none
  | p :: rest => if p.1 = k then some p.2 else dictGet rest k

/-- Dictionary assignment, `m[k] = v`. -/
def dictInsert {α β : Type} [DecidableEq α] (m : List (α × β)) (k : α) (v : β) :
    List (α × β) :=
  match m with
  | [] => [(k, v)]
  | p :: rest => if p.1 = k then (k, v) :: rest else p :: dictInsert rest k v

/-- Dictionary deletion, `del m[k]` (no-op when the key is absent). -/
def dictErase {α β : Type} [DecidableEq α] (m : List (α × β)) (k : α) :
    List (α × β) :=
  match m with
  | [] => []
  | p :: rest => if p.1 = k then rest else p :: dictErase rest k

/-- The key list of a dictionary, `list(m.keys())`, in insertion order. -/
def keys {α β : Type} (m : List (α × β)) : List α := m.map Prod.fst

/-! ### Data model

One alert, as stored in `active_alerts[chat_id][alert_id]`
(src/bot.py, `set_alert`): a dict with keys `symbol`, `target`,
`initial`, `last_price`, `exchange`.  Prices are modelled as rationals.
-/

structure Alert where
  symbol : String
  target : ℚ
  initial : ℚ
  last_price : ℚ
  exchange : String
deriving DecidableEq, Repr

/-- The per-chat alert dictionary `active_alerts[chat_id]`: alert ids
(decimal strings produced by `str(alert_counter)`) to alerts. -/
abbrev ChatMap := List (String × Alert)

/-- The global store `active_alerts`: chat ids to per-chat alert maps. -/
abbrev Store := List (Int × ChatMap)

/-- Replies sent back to the user by the command handlers, abstracted to
their structured content. -/
inductive Reply where
  | symbolNotFound (symbol exchange : String)
  | alertSet (symbol exchange : String) (target current : ℚ) (direction : String)
  | removedNumber (num : Int) (symbol : String)
  | removedBySymbol (count : Nat) (identifier : String)
  | noAlertFound (identifier : String)
  | noAlerts
  | cleared
  | noAlertsToClear
deriving DecidableEq, Repr

/-- Observable side effects of one operation, in program order:
`save_alerts()` calls (with the outcome of the file write, which
`save_alerts` swallows), notification sends, and user replies. -/
inductive Event where
  | save (ok : Bool)
  | notify (delivered : Bool)
  | reply (r : Reply)
deriving DecidableEq, Repr

/-! ### Crossing detector -/

/-- The crossing check of `check_alerts` (src/bot.py lines 484 to 495):
for a downward alert (`target < initial`) the price must have been
strictly above the target and now be at or below it; for an upward alert
(`target > initial`) the mirror image; otherwise no trigger. -/
def crossed (target initial last_price current : ℚ) : Bool :=
  if target < initial then
    decide (last_price > target) && decide (current ≤ target)
  else if target > initial then
    decide (last_price < target) && decide (current ≥ target)
  else false

/-! ### Per-alert scheduler step -/

/-- Result of processing one alert on one tick of `check_alerts`:
the alert as it remains in the store (`none` when removed) and the
emitted events. -/
structure TickStep where
  alert? : Option Alert
  events : List Event
deriving DecidableEq, Repr

/-- One iteration of the inner loop of `check_alerts` (src/bot.py lines
472 to 543), for a single alert: `fetched` is the result of
`get_price`, `sendOk` tells whether `bot.send_message` succeeds, and
`saveOk` whether the snapshot write inside `save_alerts` succeeds.
When no price is available the loop `continue`s with no state change;
otherwise `last_price` is set to the current price, and a triggered
alert is deleted (followed by `save_alerts()`) exactly when the
notification send does not raise. -/
def check_alert_step (a : Alert) (fetched : Option ℚ) (sendOk saveOk : Bool) :
    TickStep :=
  match fetched with
  | none => ⟨some a, []⟩
  | some current =>
    let a' := { a with last_price := current }
    if crossed a.target a.initial a.last_price current then
      if sendOk then ⟨none, [.notify true, .save saveOk]⟩
      else ⟨some a', [.notify false]⟩
    else ⟨some a', []⟩

/-- Iterated scheduler ticks on a single alert: each element of the
list gives one tick (fetched price, send outcome, save outcome).
Returns the final state of the alert and all emitted events. -/
def run_ticks (a : Alert) : List (Option ℚ × Bool × Bool) → Option Alert × List Event
  | [] => (some a, [])
  | (fetched, sendOk, saveOk) :: rest =>
    let r := check_alert_step a fetched sendOk saveOk
    match r.alert? with
    | none => (none, r.events)
    | some a' =>
      let tail := run_ticks a' rest
      (tail.1, r.events ++ tail.2)

/-! ### Snapshot persistence -/

/-- The snapshot written by `save_alerts` (src/bot.py lines 55 to 62):
`json.dump` converts the integer chat-id keys of `active_alerts` to
decimal strings; alert ids are already strings and alert fields are
stored as they are. -/
def serialize (store : Store) : List (String × ChatMap) :=
  store.map (fun p => (pyStr p.1, p.2))

/-- The chat-key conversion of `load_data`:
`{int(k): v for k, v in data.items()}`.  Produces `none` (an exception,
caught by the surrounding handler) when some chat key is not numeric. -/
def parseChats : List (String × ChatMap) → Option Store
  | [] => some []
  | (k, m) :: rest =>
    match pyInt? k with
    | some c => (parseChats rest).map (fun s => (c, m) :: s)
    | none => none

/-- The inner `max_id` loop of `load_data` over one chat map: alert ids
that `int` rejects are skipped. -/
def max_id_chat (acc : Int) (m : ChatMap) : Int :=
  m.foldl (fun a q =>
    match pyInt? q.1 with
    | some n => max a n
    | none => a) acc

/-- The `max_id` computation of `load_data` over the whole store,
starting from 0. -/
def max_id (store : Store) : Int :=
  store.foldl (fun acc p => max_id_chat acc p.2) 0

/-- `load_data` (src/bot.py lines 28 to 53): parse the snapshot back
into the store (chat keys through `int`), and set `alert_counter` to
the maximum numeric alert id plus one.  A parse failure is caught and
resets the store to empty, leaving the counter at its starting 0. -/
def load_data (snap : List (String × ChatMap)) : Store × Int :=
  match parseChats snap with
  | none => ([], 0)
  | some store => (store, max_id store + 1)

/-! ### Command handlers -/

/-- Result of a create request: the new store, the new counter, and the
emitted events. -/
structure CreateResult where
  store : Store
  counter : Int
  events : List Event
deriving DecidableEq, Repr

/-- `set_alert` (src/bot.py lines 393 to 429): verify the symbol by
fetching a price; on `None` report failure and change nothing (the
counter is not touched).  Otherwise ensure the chat entry exists,
assign id `str(alert_counter)`, increment the counter, store the alert
with `initial` and `last_price` both set to the fetched price, save,
and confirm with the derived direction. -/
def set_alert (store : Store) (counter : Int) (chat : Int) (symbol : String)
    (target : ℚ) (exchange : String) (fetched : Option ℚ) (saveOk : Bool) :
    CreateResult :=
  match fetched with
  | none => ⟨store, counter, [.reply (.symbolNotFound symbol exchange)]⟩
  | some current =>
    let store1 := if (dictGet store chat).isSome then store else dictInsert store chat []
    let alert_id := pyStr counter
    let m := (dictGet store1 chat).getD []
    let store2 := dictInsert store1 chat
      (dictInsert m alert_id ⟨symbol, target, current, current, exchange⟩)
    ⟨store2, counter + 1,
      [.save saveOk,
       .reply (.alertSet symbol exchange target current
         (if target < current then "below" else "above"))]⟩

/-- `set_alert_from_callback` (src/bot.py lines 431 to 467): identical
alert logic to `set_alert`, replying through the callback query. -/
def set_alert_from_callback (store : Store) (counter : Int) (chat : Int)
    (symbol : String) (target : ℚ) (exchange : String) (fetched : Option ℚ)
    (saveOk : Bool) : CreateResult :=
  match fetched with
  | none => ⟨store, counter, [.reply (.symbolNotFound symbol exchange)]⟩
  | some current =>
    let store1 := if (dictGet store chat).isSome then store else dictInsert store chat []
    let alert_id := pyStr counter
    let m := (dictGet store1 chat).getD []
    let store2 := dictInsert store1 chat
      (dictInsert m alert_id ⟨symbol, target, current, current, exchange⟩)
    ⟨store2, counter + 1,
      [.save saveOk,
       .reply (.alertSet symbol exchange target current
         (if target < current then "below" else "above"))]⟩

/-- Result of the numeric branch of `remove_alert`: the updated chat
map, the events, and whether the branch removed an alert and returned
(otherwise the handler falls through to symbol matching). -/
structure RemoveNumResult where
  map : ChatMap
  events : List Event
  handled : Bool
deriving DecidableEq, Repr

/-- The numeric branch of `remove_alert` (src/bot.py lines 210 to 222):
a 1-based position into `list(active_alerts[chat_id].keys())`; in range
it deletes the alert at that position, saves, and confirms with the
position and the symbol looked up under the chosen id. -/
def remove_by_number (m : ChatMap) (num : Int) (saveOk : Bool) : RemoveNumResult :=
  if 1 ≤ num ∧ num ≤ (m.length : Int) then
    match (keys m)[(num - 1).toNat]? with
    | some alert_id =>
      ⟨dictErase m alert_id,
       [.save saveOk,
        .reply (.removedNumber num (((dictGet m alert_id).map Alert.symbol).getD ""))],
       true⟩
    | none => ⟨m, [], false⟩
  else ⟨m, [], false⟩

/-- The symbol branch of `remove_alert` (src/bot.py lines 224 to 236):
collect the ids whose alert symbol equals the identifier or the
identifier with `USDT` appended, delete them all, and save once when at
least one was removed. -/
def remove_by_symbol (m : ChatMap) (identifier : String) (saveOk : Bool) :
    ChatMap × List Event :=
  let removed := (m.filter
    (fun p => p.2.symbol == identifier || p.2.symbol == identifier ++ "USDT")).map
      Prod.fst
  if removed.isEmpty then (m, [.reply (.noAlertFound identifier)])
  else (removed.foldl (fun acc id => dictErase acc id) m,
    [.save saveOk, .reply (.removedBySymbol removed.length identifier)])

/-- The numeric path of `remove_alert` at store level: a no-op when the
chat has no alerts. -/
def remove_alert_number (store : Store) (chat : Int) (num : Int) (saveOk : Bool) :
    Store :=
  match dictGet store chat with
  | none => store
  | some m =>
    if m.isEmpty then store
    else dictInsert store chat (remove_by_number m num saveOk).map

/-- The symbol path of `remove_alert` at store level: a no-op when the
chat has no alerts. -/
def remove_alert_symbol (store : Store) (chat : Int) (identifier : String)
    (saveOk : Bool) : Store :=
  match dictGet store chat with
  | none => store
  | some m =>
    if m.isEmpty then store
    else dictInsert store chat (remove_by_symbol m identifier saveOk).1

/-- `clear_alerts` (src/bot.py lines 238 to 247): when the chat has an
entry (even an empty one) it is reset to an empty dict and saved. -/
def clear_alerts (store : Store) (chat : Int) (saveOk : Bool) : Store × List Event :=
  if (dictGet store chat).isSome then
    (dictInsert store chat [], [.save saveOk, .reply .cleared])
  else (store, [.reply .noAlertsToClear])

/-- The effect on `active_alerts` of processing one alert of one
`check_alerts` tick, at store level: look the alert up, fetch; on a
missing price nothing changes; otherwise `last_price` is written back,
and when the alert triggered and the send succeeded the alert is
deleted. -/
def check_one_alert (store : Store) (chat : Int) (alert_id : String)
    (fetched : Option ℚ) (sendOk : Bool) : Store :=
  match dictGet store chat with
  | none => store
  | some m =>
    match dictGet m alert_id with
    | none => store
    | some a =>
      match fetched with
      | none => store
      | some current =>
        let m' := dictInsert m alert_id { a with last_price := current }
        if crossed a.target a.initial a.last_price current && sendOk then
          dictInsert store chat (dictErase m' alert_id)
        else dictInsert store chat m'

/-! ### Reachable process states -/

/-- The mutations the running process performs on the global pair
(`active_alerts`, `alert_counter`).  The reload step carries the
structural fact that a JSON object cannot repeat keys. -/
inductive Step : Store × Int → Store × Int → Prop where
  | create (s : Store × Int) (chat : Int) (symbol : String) (target : ℚ)
      (exchange : String) (fetched : Option ℚ) (saveOk : Bool) :
      Step s ((set_alert s.1 s.2 chat symbol target exchange fetched saveOk).store,
        (set_alert s.1 s.2 chat symbol target exchange fetched saveOk).counter)
  | createCallback (s : Store × Int) (chat : Int) (symbol : String) (target : ℚ)
      (exchange : String) (fetched : Option ℚ) (saveOk : Bool) :
      Step s
        ((set_alert_from_callback s.1 s.2 chat symbol target exchange fetched
            saveOk).store,
         (set_alert_from_callback s.1 s.2 chat symbol target exchange fetched
            saveOk).counter)
  | removeNumber (s : Store × Int) (chat num : Int) (saveOk : Bool) :
      Step s (remove_alert_number s.1 chat num saveOk, s.2)
  | removeSymbol (s : Store × Int) (chat : Int) (identifier : String) (saveOk : Bool) :
      Step s (remove_alert_symbol s.1 chat identifier saveOk, s.2)
  | clear (s : Store × Int) (chat : Int) (saveOk : Bool) :
      Step s ((clear_alerts s.1 chat saveOk).1, s.2)
  | tick (s : Store × Int) (chat : Int) (alert_id : String) (fetched : Option ℚ)
      (sendOk : Bool) :
      Step s (check_one_alert s.1 chat alert_id fetched sendOk, s.2)
  | reload (s : Store × Int) (snap : List (String × ChatMap))
      (hsnap : ∀ k m, (k, m) ∈ snap → (keys m).Nodup) :
      Step s (load_data snap)

/-- States reachable from the fresh-process state (empty store, counter
0) by any sequence of handler invocations, scheduler ticks and
reloads. -/
inductive Reachable : Store × Int → Prop where
  | init : Reachable ([], 0)
  | step {s t : Store × Int} (h : Reachable s) (hs : Step s t) : Reachable t

/-- Invariant of one chat map relative to the id counter: alert ids are
pairwise distinct and every numeric id is below the counter. -/
def chatOK (counter : Int) (m : ChatMap) : Prop :=
  (keys m).Nodup ∧ ∀ id ∈ keys m, ∀ n : Int, pyInt? id = some n → n < counter

/-- Invariant of a process state: every chat map in the store satisfies
`chatOK` with respect to the counter. -/
def StoreInv (s : Store × Int) : Prop :=
  ∀ p, p ∈ s.1 → chatOK s.2 p.2

theorem digitChar_isDigit {d : Nat} (h : d < 10) :
    (Nat.digitChar d).isDigit = true := by
  interval_cases d <;> decide

theorem digitChar_toNat {d : Nat} (h : d < 10) :
    (Nat.digitChar d).toNat = 48 + d := by
  interval_cases d <;> decide

theorem toDigitsCore_eq_digitsRec :
    ∀ (fuel n : Nat) (ds : List Char), n < fuel →
      Nat.toDigitsCore 10 fuel n ds = digitsRec n ++ ds := by
  intro fuel
  induction fuel with
  | zero => intro n ds h; omega
  | succ fuel ih =>
    intro n ds h
    show (if n / 10 = 0 then Nat.digitChar (n % 10) :: ds
          else Nat.toDigitsCore 10 fuel (n / 10) (Nat.digitChar (n % 10) :: ds)) = _
    by_cases h10 : n / 10 = 0
    · have hn : n < 10 := by omega
      rw [if_pos h10, digitsRec, if_pos hn, Nat.mod_eq_of_lt hn]
      simp
    · have hn : ¬ n < 10 := by omega
      have hfuel : n / 10 < fuel := by omega
      rw [if_neg h10, ih (n / 10) _ hfuel]
      conv_rhs => rw [digitsRec]
      rw [if_neg hn]
      simp

theorem toDigits_eq_digitsRec (n : Nat) : Nat.toDigits 10 n = digitsRec n := by
  have := toDigitsCore_eq_digitsRec (n + 1) n [] (by omega)
  simpa [Nat.toDigits] using this

theorem digitsRec_ne_nil (n : Nat) : digitsRec n ≠ [] := by
  rw [digitsRec]
  split <;> simp

theorem digitsRec_all_digit (n : Nat) : (digitsRec n).all Char.isDigit = true := by
  induction n using Nat.strong_induction_on with
  | _ n ih =>
    rw [digitsRec]
    split
    · rename_i hn
      simp [digitChar_isDigit hn]
    · rename_i hn
      have h0 : 0 < n := by omega
      have hrec := ih (n / 10) (Nat.div_lt_self h0 (by omega))
      have hd := digitChar_isDigit (Nat.mod_lt n (by omega))
      simp [hrec, hd]

theorem digitsRec_foldl (n : Nat) :
    ∀ a : Nat,
      (digitsRec n).foldl (fun a c => 10 * a + (c.toNat - 48)) a
        = a * 10 ^ (digitsRec n).length + n := by
  induction n using Nat.strong_induction_on with
  | _ n ih =>
    intro a
    rw [digitsRec]
    split
    · rename_i hn
      simp [digitChar_toNat hn]
      omega
    · rename_i hn
      have h0 : 0 < n := by omega
      have hdiv := ih (n / 10) (Nat.div_lt_self h0 (by omega))
      rw [List.foldl_append, hdiv a]
      simp only [List.foldl_cons, List.foldl_nil, List.length_append,
        List.length_cons, List.length_nil]
      rw [digitChar_toNat (Nat.mod_lt n (by omega))]
      have hmod : 10 * (n / 10) + n % 10 = n := by omega
      have hpow : 10 ^ ((digitsRec (n / 10)).length + (0 + 1))
          = 10 ^ (digitsRec (n / 10)).length * 10 := by
        rw [pow_succ]
      rw [hpow]
      ring_nf
      omega

theorem parseNat_digitsRec (n : Nat) : parseNat (digitsRec n) = some n := by
  have hne := digitsRec_ne_nil n
  rw [parseNat, if_neg (by simpa [List.isEmpty_iff] using hne),
    if_pos (digitsRec_all_digit n), digitsRec_foldl n 0]
  simp

theorem pyInt?_pyStr (n : Int) : pyInt? (pyStr n) = some n := by
  cases n with
  | ofNat m =>
    have hdata : ((Nat.toDigits 10 m).asString).data = digitsRec m := by
      rw [toDigits_eq_digitsRec]; rfl
    obtain ⟨c, cs, hcs⟩ : ∃ c cs, digitsRec m = c :: cs := by
      cases h : digitsRec m with
      | nil => exact absurd h (digitsRec_ne_nil m)
      | cons c cs => exact ⟨c, cs, rfl⟩
    have hdigit : c.isDigit = true := by
      have := digitsRec_all_digit m
      rw [hcs] at this
      simp only [List.all_cons, Bool.and_eq_true] at this
      exact this.1
    have hne : c ≠ '-' := by
      intro hc; rw [hc] at hdigit; simp [Char.isDigit] at hdigit
    have hparse : parseNat (c :: cs) = some m := by
      rw [← hcs]; exact parseNat_digitsRec m
    rw [pyStr]
    show pyInt? ⟨(Nat.toDigits 10 m).asString.data⟩ = some (Int.ofNat m)
    rw [hdata, hcs]
    show (if c = '-' then (parseNat cs).map (fun v => -(v : Int))
          else (parseNat (c :: cs)).map (fun v => (v : Int))) = some (Int.ofNat m)
    rw [if_neg hne, hparse]
    rfl
  | negSucc m =>
    have hdata : (("-" ++ (Nat.toDigits 10 (m + 1)).asString)).data
        = '-' :: digitsRec (m + 1) := by
      rw [show ("-" ++ (Nat.toDigits 10 (m + 1)).asString).data
            = "-".data ++ ((Nat.toDigits 10 (m + 1)).asString).data from rfl,
        toDigits_eq_digitsRec]
      rfl
    rw [pyStr]
    show pyInt? ⟨("-" ++ (Nat.toDigits 10 (m + 1)).asString).data⟩ = some (Int.negSucc m)
    rw [hdata]
    show (if '-' = '-' then (parseNat (digitsRec (m + 1))).map (fun v => -(v : Int))
          else (parseNat ('-' :: digitsRec (m + 1))).map (fun v => (v : Int)))
        = some (Int.negSucc m)
    rw [if_pos rfl, parseNat_digitsRec (m + 1)]
    simp [Int.negSucc_eq]

/-! ### Crossing detector lemmas -/

theorem crossed_eq_true_iff (target initial last_price current : ℚ) :
    crossed target initial last_price current = true ↔
      ((target < initial ∧ last_price > target ∧ current ≤ target) ∨
       (target > initial ∧ last_price < target ∧ current ≥ target)) := by
  unfold crossed
  split_ifs with h1 h2
  · simp only [Bool.and_eq_true, decide_eq_true_eq]
    constructor
    · rintro ⟨hl, hc⟩
      exact .inl ⟨h1, hl, hc⟩
    · rintro (⟨_, hl, hc⟩ | ⟨h2, _, _⟩)
      · exact ⟨hl, hc⟩
      · exact absurd h2 (not_lt.mpr (le_of_lt h1))
  · simp only [Bool.and_eq_true, decide_eq_true_eq]
    constructor
    · rintro ⟨hl, hc⟩
      exact .inr ⟨h2, hl, hc⟩
    · rintro (⟨h1', _, _⟩ | ⟨_, hl, hc⟩)
      · exact absurd h1' h1
      · exact ⟨hl, hc⟩
  · simp only [Bool.false_eq_true, false_iff]
    rintro (⟨h, _, _⟩ | ⟨h, _, _⟩)
    · exact h1 h
    · exact h2 h

theorem crossed_self_eq_false (target initial p : ℚ) :
    crossed target initial p p = false := by
  unfold crossed
  split_ifs with h1 h2
  · simp only [Bool.and_eq_false_iff, decide_eq_false_iff_not, gt_iff_lt]
    rcases le_or_lt p target with hle | hlt
    · exact .inl (not_lt.mpr hle)
    · exact .inr (not_le.mpr hlt)
  · simp only [Bool.and_eq_false_iff, decide_eq_false_iff_not, ge_iff_le]
    rcases le_or_lt target p with hle | hlt
    · exact .inl (not_lt.mpr hle)
    · exact .inr (not_le.mpr hlt)
  · rfl

theorem crossed_degenerate {target initial : ℚ} (h : target = initial)
    (last_price current : ℚ) : crossed target initial last_price current = false := by
  unfold crossed
  rw [h]
  simp

/-- C1: for every alert, the crossing check triggers exactly per the
inclusive-boundary policy: with direction below (`target < initial`) it
triggers iff `last_price > target` and `current ≤ target`; with
direction above (`target > initial`) it triggers iff
`last_price < target` and `current ≥ target`; in all other cases it
does not trigger. -/
theorem crossing_inclusive_boundary_policy (target initial last_price current : ℚ) :
    crossed target initial last_price current = true ↔
      ((target < initial ∧ last_price > target ∧ current ≤ target) ∨
       (target > initial ∧ last_price < target ∧ current ≥ target)) :=
  crossed_eq_true_iff target initial last_price current

/-- C2: on a poll tick, when the price fetch returns no usable price,
the scheduler skips the alert with no state change: the alert is kept
as is (`last_price` untouched), it is not removed, and no notification
or save happens; unavailability is never treated as a crossing. -/
theorem no_price_skips_alert (a : Alert) (sendOk saveOk : Bool) :
    check_alert_step a none sendOk saveOk = ⟨some a, []⟩ := rfl

theorem check_alert_step_self (a : Alert) (sendOk saveOk : Bool) :
    check_alert_step a (some a.last_price) sendOk saveOk = ⟨some a, []⟩ := by
  simp only [check_alert_step]
  rw [crossed_self_eq_false]
  rfl

theorem run_ticks_replicate_self (a : Alert) (sendOk saveOk : Bool) (n : Nat) :
    run_ticks a (List.replicate n (some a.last_price, sendOk, saveOk)) = (some a, []) := by
  induction n with
  | zero => rfl
  | succ n ih =>
    rw [List.replicate_succ]
    simp only [run_ticks, check_alert_step_self a sendOk saveOk, ih, List.nil_append]

/-- C8: evaluating an alert whose `last_price` already equals the
current price never triggers: the tick leaves the alert unchanged and
emits no notification and no save, and any number of repeated ticks
observing that same price produce no trigger either. -/
theorem same_price_never_triggers (a : Alert) (sendOk saveOk : Bool) (n : Nat) :
    check_alert_step a (some a.last_price) sendOk saveOk = ⟨some a, []⟩ ∧
    run_ticks a (List.replicate n (some a.last_price, sendOk, saveOk)) = (some a, []) :=
  ⟨check_alert_step_self a sendOk saveOk, run_ticks_replicate_self a sendOk saveOk n⟩

/-- C3: when an alert triggers on a poll tick, it is removed exactly
when the notification send succeeds; a failed send leaves the alert in
the store with `last_price` already advanced to the fetched price, and
no snapshot write happens in that case. -/
theorem triggered_removed_iff_send_succeeds (a : Alert) (current : ℚ) (saveOk : Bool)
    (h : crossed a.target a.initial a.last_price current = true) :
    check_alert_step a (some current) true saveOk
        = ⟨none, [.notify true, .save saveOk]⟩ ∧
    check_alert_step a (some current) false saveOk
        = ⟨some { a with last_price := current }, [.notify false]⟩ := by
  simp only [check_alert_step]
  rw [h]
  exact ⟨rfl, rfl⟩

theorem triggered_removed_iff_send_succeeds_witness :
    check_alert_step ⟨"BTCUSDT", 90000, 95000, 91000, "binance"⟩ (some 89999) true true
        = ⟨none, [.notify true, .save true]⟩ ∧
    check_alert_step ⟨"BTCUSDT", 90000, 95000, 91000, "binance"⟩ (some 89999) false true
        = ⟨some ⟨"BTCUSDT", 90000, 95000, 89999, "binance"⟩, [.notify false]⟩ :=
  triggered_removed_iff_send_succeeds
    ⟨"BTCUSDT", 90000, 95000, 91000, "binance"⟩ 89999 true (by decide)

/-- C10: an alert whose target equals its initial price never triggers
on any tick: across any sequence of scheduler ticks it is never removed
and never produces a notification or save, so it stays active (with
target and initial unchanged) until explicitly removed. -/
theorem degenerate_alert_never_triggers (a : Alert) (h : a.target = a.initial)
    (ticks : List (Option ℚ × Bool × Bool)) :
    (run_ticks a ticks).1.map Alert.target = some a.target ∧
    (run_ticks a ticks).1.map Alert.initial = some a.initial ∧
    (run_ticks a ticks).2 = [] := by
  induction ticks generalizing a with
  | nil => exact ⟨rfl, rfl, rfl⟩
  | cons t rest ih =>
    obtain ⟨fetched, sendOk, saveOk⟩ := t
    cases fetched with
    | none =>
      have hstep : check_alert_step a none sendOk saveOk = ⟨some a, []⟩ := rfl
      simpa only [run_ticks, hstep, List.nil_append] using ih a h
    | some current =>
      have hstep : check_alert_step a (some current) sendOk saveOk
          = ⟨some { a with last_price := current }, []⟩ := by
        simp only [check_alert_step]
        rw [crossed_degenerate h]
        rfl
      simpa only [run_ticks, hstep, List.nil_append] using
        ih { a with last_price := current } h

theorem degenerate_alert_never_triggers_witness :
    (run_ticks ⟨"ETHUSDT", 4000, 4000, 4000, "bybit"⟩
        [(some 3000, true, true), (none, true, true), (some 5000, true, true)]).1.map
          Alert.target
        = some (4000 : ℚ) ∧
    (run_ticks ⟨"ETHUSDT", 4000, 4000, 4000, "bybit"⟩
        [(some 3000, true, true), (none, true, true), (some 5000, true, true)]).1.map
          Alert.initial
        = some (4000 : ℚ) ∧
    (run_ticks ⟨"ETHUSDT", 4000, 4000, 4000, "bybit"⟩
        [(some 3000, true, true), (none, true, true), (some 5000, true, true)]).2 = [] :=
  degenerate_alert_never_triggers ⟨"ETHUSDT", 4000, 4000, 4000, "bybit"⟩ (by decide)
    [(some 3000, true, true), (none, true, true), (some 5000, true, true)]

/-! ### Dictionary lemmas -/

theorem dictGet_mem {α β : Type} [DecidableEq α] {m : List (α × β)} {k : α} {v : β}
    (h : dictGet m k = some v) : (k, v) ∈ m := by
  induction m with
  | nil => exact absurd h (by simp [dictGet])
  | cons p rest ih =>
    rw [dictGet] at h
    by_cases heq : p.1 = k
    · rw [if_pos heq] at h
      have hv : p.2 = v := Option.some.inj h
      have hp : p = (k, v) := by
        obtain ⟨p1, p2⟩ := p
        simp only at heq hv
        rw [heq, hv]
      rw [← hp]
      exact List.mem_cons_self p rest
    · rw [if_neg heq] at h
      exact List.mem_cons_of_mem p (ih h)

theorem mem_dictInsert {α β : Type} [DecidableEq α] {m : List (α × β)} {k : α} {v : β}
    {p : α × β} (h : p ∈ dictInsert m k v) : p ∈ m ∨ p = (k, v) := by
  induction m with
  | nil =>
    rw [dictInsert] at h
    exact .inr (List.mem_singleton.mp h)
  | cons q rest ih =>
    rw [dictInsert] at h
    by_cases heq : q.1 = k
    · rw [if_pos heq] at h
      rcases List.mem_cons.mp h with h1 | h1
      · exact .inr h1
      · exact .inl (List.mem_cons_of_mem q h1)
    · rw [if_neg heq] at h
      rcases List.mem_cons.mp h with h1 | h1
      · exact .inl (h1 ▸ List.mem_cons_self q rest)
      · rcases ih h1 with h2 | h2
        · exact .inl (List.mem_cons_of_mem q h2)
        · exact .inr h2

theorem keys_dictInsert_of_mem {α β : Type} [DecidableEq α] {m : List (α × β)} {k : α}
    (v : β) (h : k ∈ keys m) : keys (dictInsert m k v) = keys m := by
  induction m with
  | nil => exact absurd h (by simp [keys])
  | cons q rest ih =>
    rw [dictInsert]
    by_cases heq : q.1 = k
    · rw [if_pos heq]
      simp [keys, heq]
    · rw [if_neg heq]
      have hk : k ∈ keys rest := by
        rcases List.mem_cons.mp h with h1 | h1
        · exact absurd h1.symm heq
        · exact h1
      simp only [keys, List.map_cons] at ih ⊢
      rw [ih hk]

theorem keys_dictInsert_of_not_mem {α β : Type} [DecidableEq α] {m : List (α × β)}
    {k : α} (v : β) (h : k ∉ keys m) : keys (dictInsert m k v) = keys m ++ [k] := by
  induction m with
  | nil => rfl
  | cons q rest ih =>
    rw [dictInsert]
    have hqk : q.1 ≠ k := by
      intro hc
      exact h (hc ▸ List.mem_cons_self q.1 (keys rest))
    rw [if_neg hqk]
    have hk : k ∉ keys rest := fun hc => h (List.mem_cons_of_mem q.1 hc)
    simp only [keys, List.map_cons] at ih ⊢
    rw [ih hk, List.cons_append]

theorem mem_keys_dictInsert {α β : Type} [DecidableEq α] {m : List (α × β)} {k id : α}
    {v : β} (h : id ∈ keys (dictInsert m k v)) : id ∈ keys m ∨ id = k := by
  by_cases hk : k ∈ keys m
  · rw [keys_dictInsert_of_mem v hk] at h
    exact .inl h
  · rw [keys_dictInsert_of_not_mem v hk] at h
    rcases List.mem_append.mp h with h1 | h1
    · exact .inl h1
    · exact .inr (List.mem_singleton.mp h1)

theorem nodup_keys_dictInsert {α β : Type} [DecidableEq α] {m : List (α × β)} {k : α}
    (v : β) (h : (keys m).Nodup) : (keys (dictInsert m k v)).Nodup := by
  by_cases hk : k ∈ keys m
  · rw [keys_dictInsert_of_mem v hk]
    exact h
  · rw [keys_dictInsert_of_not_mem v hk]
    simp [List.nodup_append, h, hk]

theorem dictErase_sublist {α β : Type} [DecidableEq α] (m : List (α × β)) (k : α) :
    List.Sublist (dictErase m k) m := by
  induction m with
  | nil => exact List.Sublist.refl []
  | cons q rest ih =>
    rw [dictErase]
    by_cases heq : q.1 = k
    · rw [if_pos heq]
      exact (List.Sublist.refl rest).cons q
    · rw [if_neg heq]
      exact ih.cons₂ q

theorem keys_dictErase_sublist {α β : Type} [DecidableEq α] (m : List (α × β)) (k : α) :
    List.Sublist (keys (dictErase m k)) (keys m) :=
  (dictErase_sublist m k).map Prod.fst

theorem nodup_keys_dictErase {α β : Type} [DecidableEq α] {m : List (α × β)} (k : α)
    (h : (keys m).Nodup) : (keys (dictErase m k)).Nodup :=
  h.sublist (keys_dictErase_sublist m k)

theorem dictGet_get {α β : Type} [DecidableEq α] {m : List (α × β)}
    (hnd : (keys m).Nodup) (i : Fin m.length) :
    dictGet m (m.get i).1 = some (m.get i).2 := by
  induction m with
  | nil => exact absurd i.isLt (by simp)
  | cons q rest ih =>
    obtain ⟨iv, hi⟩ := i
    cases iv with
    | zero =>
      rw [dictGet]
      simp
    | succ j =>
      have hj : j < rest.length := by simpa using hi
      have hnd' : (keys rest).Nodup := (List.nodup_cons.mp hnd).2
      have hne : q.1 ≠ (rest.get ⟨j, hj⟩).1 := by
        intro hc
        have h1 : q.1 ∉ keys rest := (List.nodup_cons.mp hnd).1
        have h2 : (rest.get ⟨j, hj⟩).1 ∈ keys rest :=
          List.mem_map_of_mem Prod.fst (List.get_mem rest j hj)
        exact h1 (hc ▸ h2)
      rw [dictGet]
      have hgs : ((q :: rest).get ⟨j + 1, hi⟩) = rest.get ⟨j, hj⟩ := rfl
      rw [hgs, if_neg hne]
      exact ih hnd' ⟨j, hj⟩

theorem dictErase_get {α β : Type} [DecidableEq α] {m : List (α × β)}
    (hnd : (keys m).Nodup) (i : Fin m.length) :
    dictErase m (m.get i).1 = m.eraseIdx i.1 := by
  induction m with
  | nil => exact absurd i.isLt (by simp)
  | cons q rest ih =>
    obtain ⟨iv, hi⟩ := i
    cases iv with
    | zero =>
      rw [dictErase]
      simp [List.eraseIdx]
    | succ j =>
      have hj : j < rest.length := by simpa using hi
      have hnd' : (keys rest).Nodup := (List.nodup_cons.mp hnd).2
      have hne : q.1 ≠ (rest.get ⟨j, hj⟩).1 := by
        intro hc
        have h1 : q.1 ∉ keys rest := (List.nodup_cons.mp hnd).1
        have h2 : (rest.get ⟨j, hj⟩).1 ∈ keys rest :=
          List.mem_map_of_mem Prod.fst (List.get_mem rest j hj)
        exact h1 (hc ▸ h2)
      have hgs : ((q :: rest).get ⟨j + 1, hi⟩) = rest.get ⟨j, hj⟩ := rfl
      rw [dictErase, hgs, if_neg hne]
      rw [ih hnd' ⟨j, hj⟩]
      rfl

/-! ### Persistence lemmas -/

theorem parseChats_serialize (store : Store) :
    parseChats (serialize store) = some store := by
  induction store with
  | nil => rfl
  | cons p rest ih =>
    obtain ⟨c, m⟩ := p
    show parseChats ((pyStr c, m) :: serialize rest) = some ((c, m) :: rest)
    rw [parseChats, pyInt?_pyStr, ih]
    rfl

theorem max_id_chat_le (m : ChatMap) : ∀ acc : Int, acc ≤ max_id_chat acc m := by
  induction m with
  | nil => exact fun acc => le_refl acc
  | cons q rest ih =>
    intro acc
    show acc ≤ max_id_chat
      (match pyInt? q.1 with
       | some n => max acc n
       | none => acc) rest
    refine le_trans ?_ (ih _)
    cases pyInt? q.1 with
    | none => exact le_refl acc
    | some n => exact le_max_left acc n

theorem max_id_chat_bound {m : ChatMap} {id : String} {a : Alert}
    (hmem : (id, a) ∈ m) {n : Int} (hn : pyInt? id = some n) :
    ∀ acc : Int, n ≤ max_id_chat acc m := by
  induction m with
  | nil => exact absurd hmem (List.not_mem_nil (id, a))
  | cons q rest ih =>
    intro acc
    rcases List.mem_cons.mp hmem with h1 | h1
    · show n ≤ max_id_chat
        (match pyInt? q.1 with
         | some k => max acc k
         | none => acc) rest
      refine le_trans ?_ (max_id_chat_le rest _)
      have hq : q.1 = id := by rw [← h1]
      rw [hq, hn]
      exact le_max_right acc n
    · exact ih h1 _

theorem max_id_acc_le (store : Store) :
    ∀ acc : Int, acc ≤ store.foldl (fun acc p => max_id_chat acc p.2) acc := by
  induction store with
  | nil => exact fun acc => le_refl acc
  | cons p rest ih =>
    intro acc
    exact le_trans (max_id_chat_le p.2 acc) (ih _)

theorem max_id_fold_bound {store : Store} {c : Int} {m : ChatMap} (hc : (c, m) ∈ store)
    {id : String} {a : Alert} (hmem : (id, a) ∈ m) {n : Int}
    (hn : pyInt? id = some n) :
    ∀ acc : Int, n ≤ store.foldl (fun acc p => max_id_chat acc p.2) acc := by
  induction store with
  | nil => exact absurd hc (List.not_mem_nil (c, m))
  | cons p rest ih =>
    intro acc
    rcases List.mem_cons.mp hc with h1 | h1
    · show n ≤ rest.foldl (fun acc p => max_id_chat acc p.2) (max_id_chat acc p.2)
      refine le_trans ?_ (max_id_acc_le rest _)
      have hm : (id, a) ∈ p.2 := by
        rw [← h1]
        exact hmem
      exact max_id_chat_bound hm hn acc
    · exact ih h1 (max_id_chat acc p.2)

theorem max_id_bound {store : Store} {c : Int} {m : ChatMap} (hc : (c, m) ∈ store)
    {id : String} {a : Alert} (hmem : (id, a) ∈ m) {n : Int}
    (hn : pyInt? id = some n) : n ≤ max_id store :=
  max_id_fold_bound hc hmem hn 0

/-- C4: serializing the store to snapshot form and loading it back
reconstructs the identical store (same chats, same ids, same alert
fields), and the reconstructed id counter exceeds every numeric alert
id in the store; ids that do not parse as integers are simply skipped
by the max computation and do not make the load fail. -/
theorem snapshot_roundtrip (store : Store) :
    (load_data (serialize store)).1 = store ∧
    (∀ c m, (c, m) ∈ store → ∀ id a, (id, a) ∈ m →
      ∀ n : Int, pyInt? id = some n → n < (load_data (serialize store)).2) := by
  have hp : load_data (serialize store) = (store, max_id store + 1) := by
    rw [load_data, parseChats_serialize]
  refine ⟨by rw [hp], ?_⟩
  intro c m hc id a hmem n hn
  rw [hp]
  have := max_id_bound hc hmem hn
  omega

theorem snapshot_roundtrip_witness :
    (load_data (serialize
        [(42, [("0", ⟨"BTCUSDT", 90000, 95000, 94000, "binance"⟩),
               ("junk", ⟨"ETHUSDT", 4000, 3500, 3600, "bybit"⟩)]),
         (-7, [("3", ⟨"SOLUSDT", 150, 100, 120, "bitget"⟩)])])).1
      = [(42, [("0", ⟨"BTCUSDT", 90000, 95000, 94000, "binance"⟩),
               ("junk", ⟨"ETHUSDT", 4000, 3500, 3600, "bybit"⟩)]),
         (-7, [("3", ⟨"SOLUSDT", 150, 100, 120, "bitget"⟩)])] ∧
    (3 : Int) < (load_data (serialize
        [(42, [("0", ⟨"BTCUSDT", 90000, 95000, 94000, "binance"⟩),
               ("junk", ⟨"ETHUSDT", 4000, 3500, 3600, "bybit"⟩)]),
         (-7, [("3", ⟨"SOLUSDT", 150, 100, 120, "bitget"⟩)])])).2 :=
  ⟨(snapshot_roundtrip _).1,
   (snapshot_roundtrip _).2 (-7) [("3", ⟨"SOLUSDT", 150, 100, 120, "bitget"⟩)]
     (by decide) "3" ⟨"SOLUSDT", 150, 100, 120, "bitget"⟩ (by decide) 3 (by decide)⟩

/-- C7: creating an alert when the price fetch finds no price reports
the failure, creates nothing, leaves the store unchanged and does not
consume an alert id; both the direct handler and the callback handler
behave this way. -/
theorem symbol_not_found_no_mutation (store : Store) (counter chat : Int)
    (symbol : String) (target : ℚ) (exchange : String) (saveOk : Bool) :
    set_alert store counter chat symbol target exchange none saveOk
        = ⟨store, counter, [.reply (.symbolNotFound symbol exchange)]⟩ ∧
    set_alert_from_callback store counter chat symbol target exchange none saveOk
        = ⟨store, counter, [.reply (.symbolNotFound symbol exchange)]⟩ :=
  ⟨rfl, rfl⟩

/-- C5 as stated fails on the code: the scheduler mutation of
`last_observed` is not persisted.  On a tick that fetches a price and
does not trigger, the stored alert is mutated (its `last_price`
advances from 94000 to 93000) yet no snapshot write occurs (the event
list carries no save). -/
theorem update_last_observed_not_persisted :
    check_alert_step ⟨"BTCUSDT", 90000, 95000, 94000, "binance"⟩ (some 93000) true true
      = ⟨some ⟨"BTCUSDT", 90000, 95000, 93000, "binance"⟩, []⟩ := by decide

/-- C5 (amended): create, remove by position, remove by symbol and
clear each synchronously write the full snapshot before reporting
success, and a persistence failure does not roll back the in-memory
mutation (the resulting store is the same whether the write succeeds
or fails); the scheduler update of `last_observed`, however, does not
itself write a snapshot (one is written only when a triggered alert is
removed after a successful send). -/
theorem mutating_ops_save_before_success
    (store : Store) (counter chat : Int) (symbol identifier exchange : String)
    (target current p : ℚ) (m : ChatMap) (num : Int) (a : Alert)
    (saveOk sendOk : Bool)
    (hnum : 1 ≤ num ∧ num ≤ (m.length : Int))
    (hchat : (dictGet store chat).isSome = true)
    (hsym : ((m.filter (fun q => q.2.symbol == identifier
        || q.2.symbol == identifier ++ "USDT")).map Prod.fst).isEmpty = false)
    (hnotrig : crossed a.target a.initial a.last_price p = false) :
    ((set_alert store counter chat symbol target exchange (some current) saveOk).events
        = [.save saveOk,
           .reply (.alertSet symbol exchange target current
             (if target < current then "below" else "above"))]
      ∧ (set_alert store counter chat symbol target exchange (some current) saveOk).store
          = (set_alert store counter chat symbol target exchange (some current)
              true).store
      ∧ (set_alert store counter chat symbol target exchange (some current)
            saveOk).counter
          = (set_alert store counter chat symbol target exchange (some current)
              true).counter)
    ∧ (∃ id, remove_by_number m num saveOk
        = ⟨dictErase m id,
           [.save saveOk,
            .reply (.removedNumber num (((dictGet m id).map Alert.symbol).getD ""))],
           true⟩)
    ∧ ((remove_by_symbol m identifier saveOk).2
        = [.save saveOk,
           .reply (.removedBySymbol
             ((m.filter (fun q => q.2.symbol == identifier
                || q.2.symbol == identifier ++ "USDT")).map Prod.fst).length
             identifier)]
      ∧ (remove_by_symbol m identifier saveOk).1 = (remove_by_symbol m identifier true).1)
    ∧ clear_alerts store chat saveOk
        = (dictInsert store chat [], [.save saveOk, .reply .cleared])
    ∧ check_alert_step a (some p) sendOk saveOk = ⟨some { a with last_price := p }, []⟩ := by
  refine ⟨⟨rfl, rfl, rfl⟩, ?_, ?_, ?_, ?_⟩
  · have hlen : (num - 1).toNat < (keys m).length := by
      have : (keys m).length = m.length := by simp [keys]
      omega
    refine ⟨(keys m).get ⟨(num - 1).toNat, hlen⟩, ?_⟩
    rw [remove_by_number, if_pos hnum]
    simp only [List.getElem?_eq_getElem hlen, List.get_eq_getElem]
  · constructor
    · rw [remove_by_symbol]
      simp only [hsym]
      rfl
    · rw [remove_by_symbol, remove_by_symbol]
      simp only [hsym]
      rfl
  · rw [clear_alerts, if_pos hchat]
  · simp only [check_alert_step]
    rw [hnotrig]
    rfl

theorem mutating_ops_save_before_success_witness :
    clear_alerts [((5 : Int), [("0", ⟨"BTCUSDT", 90000, 95000, 94000, "binance"⟩)])]
        5 false
      = (dictInsert [((5 : Int), [("0", ⟨"BTCUSDT", 90000, 95000, 94000, "binance"⟩)])]
          5 [], [.save false, .reply .cleared]) ∧
    check_alert_step ⟨"ETHUSDT", 4000, 3500, 3600, "bybit"⟩ (some 3900) true false
      = ⟨some ⟨"ETHUSDT", 4000, 3500, 3900, "bybit"⟩, []⟩ :=
  ⟨(mutating_ops_save_before_success
      [((5 : Int), [("0", ⟨"BTCUSDT", 90000, 95000, 94000, "binance"⟩)])] 7 5
      "BTCUSDT" "ETH" "binance" 90000 95000 3900
      [("0", ⟨"ETHUSDT", 4000, 3500, 3600, "bybit"⟩)] 1
      ⟨"ETHUSDT", 4000, 3500, 3600, "bybit"⟩ false true
      (by decide) (by decide) (by decide) (by decide)).2.2.2.1,
   (mutating_ops_save_before_success
      [((5 : Int), [("0", ⟨"BTCUSDT", 90000, 95000, 94000, "binance"⟩)])] 7 5
      "BTCUSDT" "ETH" "binance" 90000 95000 3900
      [("0", ⟨"ETHUSDT", 4000, 3500, 3600, "bybit"⟩)] 1
      ⟨"ETHUSDT", 4000, 3500, 3600, "bybit"⟩ false true
      (by decide) (by decide) (by decide) (by decide)).2.2.2.2⟩

/-- C6: for a chat map with distinct ids, removing by numeric position
(1-based, in range, resolved against insertion order) removes exactly
the alert at that position, leaves every other alert and its id
unchanged (the map becomes the original with that index erased), and
confirms the removal to the user with the position and the removed
symbol. -/
theorem remove_by_position_exact (m : ChatMap) (num : Int) (saveOk : Bool)
    (hnd : (keys m).Nodup) (h1 : 1 ≤ num) (h2 : num ≤ (m.length : Int))
    (hi : (num - 1).toNat < m.length) :
    remove_by_number m num saveOk
      = ⟨m.eraseIdx (num - 1).toNat,
         [.save saveOk,
          .reply (.removedNumber num (m.get ⟨(num - 1).toNat, hi⟩).2.symbol)],
         true⟩ := by
  have hklen : (num - 1).toNat < (keys m).length := by
    simpa [keys] using hi
  have hkey : (keys m)[(num - 1).toNat]? = some ((m.get ⟨(num - 1).toNat, hi⟩).1) := by
    rw [List.getElem?_eq_getElem hklen]
    simp [keys, List.get_eq_getElem]
  rw [remove_by_number, if_pos (show 1 ≤ num ∧ num ≤ (m.length : Int) from ⟨h1, h2⟩)]
  simp only [hkey]
  rw [dictGet_get hnd ⟨(num - 1).toNat, hi⟩, dictErase_get hnd ⟨(num - 1).toNat, hi⟩]
  rfl

theorem remove_by_position_exact_witness :
    remove_by_number
        [("0", ⟨"BTCUSDT", 90000, 95000, 94000, "binance"⟩),
         ("1", ⟨"ETHUSDT", 4000, 3500, 3600, "bybit"⟩),
         ("2", ⟨"SOLUSDT", 150, 100, 120, "bitget"⟩)] 2 true
      = ⟨[("0", ⟨"BTCUSDT", 90000, 95000, 94000, "binance"⟩),
          ("2", ⟨"SOLUSDT", 150, 100, 120, "bitget"⟩)],
         [.save true, .reply (.removedNumber 2 "ETHUSDT")], true⟩ :=
  remove_by_position_exact
    [("0", ⟨"BTCUSDT", 90000, 95000, 94000, "binance"⟩),
     ("1", ⟨"ETHUSDT", 4000, 3500, 3600, "bybit"⟩),
     ("2", ⟨"SOLUSDT", 150, 100, 120, "bitget"⟩)] 2 true
    (by decide) (by decide) (by decide) (by decide)

/-! ### Invariant preservation -/

theorem chatOK_mono {c c' : Int} (h : c ≤ c') {m : ChatMap} (hm : chatOK c m) :
    chatOK c' m :=
  ⟨hm.1, fun id hid n hn => lt_of_lt_of_le (hm.2 id hid n hn) h⟩

theorem chatOK_nil (c : Int) : chatOK c [] :=
  ⟨List.nodup_nil, by intro id hid; exact absurd hid (by simp [keys])⟩

theorem chatOK_dictInsert {c : Int} {m : ChatMap} {k : String} {v : Alert}
    (hm : chatOK c m) (hk : ∀ n : Int, pyInt? k = some n → n < c) :
    chatOK c (dictInsert m k v) := by
  refine ⟨nodup_keys_dictInsert v hm.1, ?_⟩
  intro id hid n hn
  rcases mem_keys_dictInsert hid with h | h
  · exact hm.2 id h n hn
  · exact hk n (h ▸ hn)

theorem chatOK_dictErase {c : Int} {m : ChatMap} (k : String) (hm : chatOK c m) :
    chatOK c (dictErase m k) := by
  refine ⟨nodup_keys_dictErase k hm.1, ?_⟩
  intro id hid n hn
  exact hm.2 id ((keys_dictErase_sublist m k).subset hid) n hn

theorem chatOK_foldl_dictErase {c : Int} (ids : List String) :
    ∀ {m : ChatMap}, chatOK c m →
      chatOK c (ids.foldl (fun acc id => dictErase acc id) m) := by
  induction ids with
  | nil => exact fun hm => hm
  | cons id rest ih =>
    intro m hm
    exact ih (chatOK_dictErase id hm)

theorem StoreInv_mono {s : Store} {c c' : Int} (h : c ≤ c')
    (hinv : StoreInv (s, c)) : StoreInv (s, c') :=
  fun p hp => chatOK_mono h (hinv p hp)

theorem dictGet_chatOK {s : Store} {c chat : Int} {m : ChatMap}
    (hinv : StoreInv (s, c)) (h : dictGet s chat = some m) : chatOK c m :=
  hinv (chat, m) (dictGet_mem h)

theorem StoreInv_dictInsert {s : Store} {c chat : Int} {m : ChatMap}
    (hinv : StoreInv (s, c)) (hm : chatOK c m) :
    StoreInv (dictInsert s chat m, c) := by
  intro p hp
  rcases mem_dictInsert hp with h | h
  · exact hinv p h
  · rw [h]
    exact hm

theorem set_alert_preserves {s : Store} {c : Int} (hinv : StoreInv (s, c))
    (chat : Int) (symbol : String) (target : ℚ) (exchange : String)
    (fetched : Option ℚ) (saveOk : Bool) :
    StoreInv ((set_alert s c chat symbol target exchange fetched saveOk).store,
      (set_alert s c chat symbol target exchange fetched saveOk).counter) := by
  cases fetched with
  | none => exact hinv
  | some current =>
    have hinv1 : StoreInv
        ((if (dictGet s chat).isSome then s else dictInsert s chat []), c) := by
      by_cases h : (dictGet s chat).isSome
      · rw [if_pos h]
        exact hinv
      · rw [if_neg h]
        exact StoreInv_dictInsert hinv (chatOK_nil c)
    have hm : chatOK c
        ((dictGet (if (dictGet s chat).isSome then s else dictInsert s chat [])
          chat).getD []) := by
      cases h : dictGet (if (dictGet s chat).isSome then s else dictInsert s chat [])
          chat with
      | none => exact chatOK_nil c
      | some m0 => exact dictGet_chatOK hinv1 h
    have hfresh : ∀ n : Int, pyInt? (pyStr c) = some n → n < c + 1 := by
      intro n hn
      rw [pyInt?_pyStr] at hn
      have := Option.some.inj hn
      omega
    show StoreInv
      (dictInsert (if (dictGet s chat).isSome then s else dictInsert s chat []) chat
        (dictInsert
          ((dictGet (if (dictGet s chat).isSome then s else dictInsert s chat [])
            chat).getD [])
          (pyStr c) ⟨symbol, target, current, current, exchange⟩), c + 1)
    exact StoreInv_dictInsert (StoreInv_mono (by omega) hinv1)
      (chatOK_dictInsert (chatOK_mono (by omega) hm) hfresh)

theorem set_alert_from_callback_eq (store : Store) (counter chat : Int)
    (symbol : String) (target : ℚ) (exchange : String) (fetched : Option ℚ)
    (saveOk : Bool) :
    set_alert_from_callback store counter chat symbol target exchange fetched saveOk
      = set_alert store counter chat symbol target exchange fetched saveOk := by
  cases fetched <;> rfl

theorem remove_by_number_chatOK {c : Int} {m : ChatMap} (hm : chatOK c m)
    (num : Int) (saveOk : Bool) : chatOK c (remove_by_number m num saveOk).map := by
  rw [remove_by_number]
  split
  · cases h : (keys m)[(num - 1).toNat]? with
    | some id =>
      simp only [h]
      exact chatOK_dictErase id hm
    | none =>
      simp only [h]
      exact hm
  · exact hm

theorem remove_alert_number_preserves {s : Store} {c : Int} (hinv : StoreInv (s, c))
    (chat num : Int) (saveOk : Bool) :
    StoreInv (remove_alert_number s chat num saveOk, c) := by
  cases h : dictGet s chat with
  | none =>
    simp only [remove_alert_number, h]
    exact hinv
  | some m =>
    simp only [remove_alert_number, h]
    split
    · exact hinv
    · exact StoreInv_dictInsert hinv
        (remove_by_number_chatOK (dictGet_chatOK hinv h) num saveOk)

theorem remove_by_symbol_chatOK {c : Int} {m : ChatMap} (hm : chatOK c m)
    (identifier : String) (saveOk : Bool) :
    chatOK c (remove_by_symbol m identifier saveOk).1 := by
  simp only [remove_by_symbol]
  split
  · exact hm
  · exact chatOK_foldl_dictErase _ hm

theorem remove_alert_symbol_preserves {s : Store} {c : Int} (hinv : StoreInv (s, c))
    (chat : Int) (identifier : String) (saveOk : Bool) :
    StoreInv (remove_alert_symbol s chat identifier saveOk, c) := by
  cases h : dictGet s chat with
  | none =>
    simp only [remove_alert_symbol, h]
    exact hinv
  | some m =>
    simp only [remove_alert_symbol, h]
    split
    · exact hinv
    · exact StoreInv_dictInsert hinv
        (remove_by_symbol_chatOK (dictGet_chatOK hinv h) identifier saveOk)

theorem clear_alerts_preserves {s : Store} {c : Int} (hinv : StoreInv (s, c))
    (chat : Int) (saveOk : Bool) :
    StoreInv ((clear_alerts s chat saveOk).1, c) := by
  rw [clear_alerts]
  split
  · exact StoreInv_dictInsert hinv (chatOK_nil c)
  · exact hinv

theorem check_one_alert_preserves {s : Store} {c : Int} (hinv : StoreInv (s, c))
    (chat : Int) (alert_id : String) (fetched : Option ℚ) (sendOk : Bool) :
    StoreInv (check_one_alert s chat alert_id fetched sendOk, c) := by
  cases hm : dictGet s chat with
  | none =>
    simp only [check_one_alert, hm]
    exact hinv
  | some m =>
    cases ha : dictGet m alert_id with
    | none =>
      simp only [check_one_alert, hm, ha]
      exact hinv
    | some a =>
      cases fetched with
      | none =>
        simp only [check_one_alert, hm, ha]
        exact hinv
      | some current =>
        simp only [check_one_alert, hm, ha]
        have hcm : chatOK c m := dictGet_chatOK hinv hm
        have hkin : alert_id ∈ keys m :=
          List.mem_map_of_mem Prod.fst (dictGet_mem ha)
        have hins : chatOK c (dictInsert m alert_id { a with last_price := current }) :=
          chatOK_dictInsert hcm (fun n hn => hcm.2 alert_id hkin n hn)
        split
        · exact StoreInv_dictInsert hinv (chatOK_dictErase alert_id hins)
        · exact StoreInv_dictInsert hinv hins

theorem parseChats_mem {snap : List (String × ChatMap)} {store : Store}
    (h : parseChats snap = some store) {p : Int × ChatMap} (hp : p ∈ store) :
    ∃ k, (k, p.2) ∈ snap := by
  induction snap generalizing store with
  | nil =>
    rw [parseChats] at h
    obtain rfl := Option.some.inj h
    exact absurd hp (List.not_mem_nil p)
  | cons q rest ih =>
    obtain ⟨k, m⟩ := q
    rw [parseChats] at h
    cases hk : pyInt? k with
    | none =>
      rw [hk] at h
      exact absurd h (by simp)
    | some c =>
      rw [hk] at h
      cases hr : parseChats rest with
      | none =>
        rw [hr] at h
        exact absurd h (by simp)
      | some store2 =>
        rw [hr] at h
        have hst : store = (c, m) :: store2 := (Option.some.inj h).symm
        subst hst
        rcases List.mem_cons.mp hp with h1 | h1
        · refine ⟨k, ?_⟩
          rw [h1]
          exact List.mem_cons_self (k, m) rest
        · obtain ⟨k2, hk2⟩ := ih hr h1
          exact ⟨k2, List.mem_cons_of_mem (k, m) hk2⟩

theorem load_data_inv (snap : List (String × ChatMap))
    (hsnap : ∀ k m, (k, m) ∈ snap → (keys m).Nodup) :
    StoreInv (load_data snap) := by
  cases hp : parseChats snap with
  | none =>
    simp only [load_data, hp]
    intro p hmem
    exact absurd hmem (List.not_mem_nil p)
  | some store =>
    simp only [load_data, hp]
    intro p hmem
    have hmem2 : p ∈ store := hmem
    refine ⟨?_, ?_⟩
    · obtain ⟨k, hk⟩ := parseChats_mem hp hmem2
      exact hsnap k p.2 hk
    · intro id hid n hn
      obtain ⟨q, hq, hq1⟩ := List.mem_map.mp hid
      have hqe : q = (id, q.2) := by
        obtain ⟨q1, q2⟩ := q
        simp only at hq1
        rw [hq1]
      have hb := max_id_bound hmem2 (hqe ▸ hq) hn
      show n < max_id store + 1
      omega

theorem reachable_inv {s : Store × Int} (h : Reachable s) : StoreInv s := by
  induction h with
  | init => exact fun p hp => absurd hp (List.not_mem_nil p)
  | step hr hs ih =>
    cases hs with
    | create chat symbol target exchange fetched saveOk =>
      exact set_alert_preserves ih chat symbol target exchange fetched saveOk
    | createCallback chat symbol target exchange fetched saveOk =>
      rw [set_alert_from_callback_eq]
      exact set_alert_preserves ih chat symbol target exchange fetched saveOk
    | removeNumber chat num saveOk =>
      exact remove_alert_number_preserves ih chat num saveOk
    | removeSymbol chat identifier saveOk =>
      exact remove_alert_symbol_preserves ih chat identifier saveOk
    | clear chat saveOk =>
      exact clear_alerts_preserves ih chat saveOk
    | tick chat alert_id fetched sendOk =>
      exact check_one_alert_preserves ih chat alert_id fetched sendOk
    | reload snap hsnap =>
      exact load_data_inv snap hsnap

/-- C9: in every reachable process state, each chat map has pairwise
distinct alert ids, every numeric id lies strictly below the process
counter (creates draw from a strictly increasing counter and a reload
resumes the counter above every persisted numeric id), and therefore
the id the next create would assign, `str(alert_counter)`, is fresh for
every chat map. -/
theorem alert_ids_never_collide {s : Store × Int} (h : Reachable s) :
    ∀ p, p ∈ s.1 →
      (keys p.2).Nodup ∧
      (∀ id ∈ keys p.2, ∀ n : Int, pyInt? id = some n → n < s.2) ∧
      pyStr s.2 ∉ keys p.2 := by
  have hinv := reachable_inv h
  intro p hp
  have hc := hinv p hp
  refine ⟨hc.1, hc.2, ?_⟩
  intro hmem
  have := hc.2 (pyStr s.2) hmem s.2 (pyInt?_pyStr s.2)
  omega

theorem alert_ids_never_collide_witness :
    (keys [("0", (⟨"BTCUSDT", 90000, 95000, 95000, "binance"⟩ : Alert))]).Nodup ∧
    (∀ id ∈ keys [("0", (⟨"BTCUSDT", 90000, 95000, 95000, "binance"⟩ : Alert))],
      ∀ n : Int, pyInt? id = some n → n < (1 : Int)) ∧
    pyStr 1 ∉ keys [("0", (⟨"BTCUSDT", 90000, 95000, 95000, "binance"⟩ : Alert))] :=
  alert_ids_never_collide
    (Reachable.step Reachable.init
      (Step.create ([], 0) 5 "BTCUSDT" 90000 "binance" (some 95000) true))
    ((5 : Int), [("0", (⟨"BTCUSDT", 90000, 95000, 95000, "binance"⟩ : Alert))])
    (by decide)

end PriceAlert
